import Mathlib

/-!
Shallow embedding of the GoLoad download manager (`main.go`) and proofs
about its registry, worker, categorizer and cleanup operations.

Modelling conventions:
* The Go map `downloads : map[string]*Download` is modelled as a
  `List Download`; record identity is the `id` field.
* Go `int64` fields are modelled as `Int` (no claim concerns overflow);
  Go `float64` progress is modelled as `ℚ` (all values reached by the
  claims are exactly representable in both).
* Interactions with the outside world (HTTP responses, `os.Stat`,
  `mime.TypeByExtension`, `url.Parse`, `url.QueryUnescape`, wall-clock
  durations, write outcomes) are oracle parameters, matching the
  documented Go standard-library contracts: in particular
  `resp.ContentLength` is `-1` when the response declares no length.
* The worker `startDownload` is embedded as a generator of an event
  trace (registry mutations and filesystem operations); running the
  trace on a registry gives the worker's effect on shared state.
-/

namespace GoLoad

/-- One download record, mirroring the Go struct `Download` in `main.go`
(`ID URL Filename Filepath Status SizeCurrent SizeTotal Progress Speed`). -/
structure Download where
  id : String
  url : String
  filename : String
  filepath : String
  status : String
  sizeCurrent : Int
  sizeTotal : Int
  progress : ℚ
  speed : Int
deriving Repr, DecidableEq

/-- The record `addDownload` inserts:
`&Download{ID: id, URL: req.URL, Status: "in_progress"}` — every other
field at its Go zero value. -/
def initialDownload (id u : String) : Download :=
  { id := id, url := u, filename := "", filepath := "", status := "in_progress",
    sizeCurrent := 0, sizeTotal := 0, progress := 0, speed := 0 }

/-- The condition under which `cleanInvalidDownloads` deletes a record:
`dl.Filepath != "" && dl.Status == "completed"` and `os.Stat(dl.Filepath)`
fails with a not-exist error. `notExist p` is the oracle for
`os.IsNotExist(err)` where `_, err := os.Stat(p)`. -/
def shouldSweep (notExist : String → Bool) (dl : Download) : Bool :=
  dl.filepath != "" && dl.status == "completed" && notExist dl.filepath

/-- `cleanInvalidDownloads` from `main.go`: delete every record meeting
`shouldSweep`, keep the rest. -/
def cleanInvalidDownloads (notExist : String → Bool) (regs : List Download) : List Download :=
  regs.filter (fun dl => !shouldSweep notExist dl)

/-- `updateStatus` from `main.go`: set `dl.Status = status` on the record
with the given id if it exists, otherwise do nothing. -/
def updateStatus (id status : String) (regs : List Download) : List Download :=
  regs.map (fun dl => if dl.id == id then { dl with status := status } else dl)

/-- The result of the `POST /add` handler: response message and id, the
registry it leaves behind, and whether `go startDownload(...)` was spawned. -/
structure AddResult where
  message : String
  id : String
  regs : List Download
  workerStarted : Bool
deriving Repr, DecidableEq

/-- `addDownload` from `main.go` (after JSON binding succeeded):
run `cleanInvalidDownloads`, scan the registry for a record with the same
URL (answer "Download already exists" with its id, spawn nothing), else
insert `&Download{ID: id, URL: u, Status: "in_progress"}` under a fresh
id (`time.Now().UnixNano()`, passed in as `freshId`) and spawn the worker. -/
def addDownload (notExist : String → Bool) (freshId u : String)
    (regs : List Download) : AddResult :=
  let swept := cleanInvalidDownloads notExist regs
  match swept.find? (fun dl => dl.url == u) with
  | some dl => ⟨"Download already exists", dl.id, swept, false⟩
  | none => ⟨"Download started", freshId, swept ++ [initialDownload freshId u], true⟩

/-- The `GET /downloads` handler's visible result: sweep, then snapshot. -/
def getDownloadsList (notExist : String → Bool) (regs : List Download) : List Download :=
  cleanInvalidDownloads notExist regs

/-- The `DELETE /clear_failed` handler's effect on the registry: sweep,
then delete every record whose `Status == "failed"`. -/
def clearFailedReg (notExist : String → Bool) (regs : List Download) : List Download :=
  (cleanInvalidDownloads notExist regs).filter (fun dl => !(dl.status == "failed"))

/-! ### Paths and the categorizer -/

/-- The download root `filepath.Join(os.Getenv("HOME"), "Downloads", "GoLoad")`.
The claims do not depend on its value; `$HOME` is fixed abstractly. -/
def downloadDir : String := "/home/user/Downloads/GoLoad"

/-- `filepath.Join` on two already-clean components (the only use the
program makes of it). -/
def pathJoin (a b : String) : String := a ++ "/" ++ b

/-- Helper for `goExt`: scan the reversed character list; stop at a path
separator, return the suffix from the first `.` found. -/
def goExtAux : List Char → List Char → String
  | [], _ => ""
  | c :: rest, acc =>
    if c = '/' then ""
    else if c = '.' then String.mk (c :: acc)
    else goExtAux rest (c :: acc)

/-- `filepath.Ext` (Go): the suffix beginning at the final dot in the final
slash-separated element of the path, empty if there is none. -/
def goExt (path : String) : String :=
  goExtAux path.data.reverse []

/-- The pure category mapping inside `getCategoryDir` in `main.go`:
take the filename's extension, substitute the declared MIME type by
`mime.TypeByExtension(ext)` (oracle `tbe`) when it is empty, then the
`switch` over the seven recognised MIME types, default `"unknown"`. -/
def getCategory (tbe : String → String) (filename mimeType : String) : String :=
  let ext := goExt filename
  let mt := if mimeType == "" then tbe ext else mimeType
  if mt == "video/mp4" || mt == "video/x-matroska" then "videos"
  else if mt == "audio/mpeg" || mt == "audio/wav" || mt == "audio/flac" then "audio"
  else if mt == "application/zip" || mt == "application/x-rar-compressed" then "compressed"
  else "unknown"

/-- The directory `getCategoryDir` returns (its `os.MkdirAll` side effect
is recorded in the worker's event trace). -/
def getCategoryDir (tbe : String → String) (filename mimeType : String) : String :=
  pathJoin downloadDir (getCategory tbe filename mimeType)

/-- The categorizer as the spec states it: an explicit MIME-type table
(`video/mp4`, `video/x-matroska` → videos; `audio/mpeg`, `audio/wav`,
`audio/flac` → audio; `application/zip`, `application/x-rar-compressed`
→ compressed; anything else → unknown), applied to the declared type, or,
when the declared type is empty, to the standard MIME type inferred from
the filename's extension. Written from the spec's words, to be compared
with `getCategory`, which is written from the source. -/
def specMimeCategory (mt : String) : Option String :=
  if mt == "video/mp4" || mt == "video/x-matroska" then some "videos"
  else if mt == "audio/mpeg" || mt == "audio/wav" || mt == "audio/flac" then some "audio"
  else if mt == "application/zip" || mt == "application/x-rar-compressed" then some "compressed"
  else none

/-- Spec-side categorizer, see `specMimeCategory`. -/
def specCategorize (tbe : String → String) (filename declared : String) : String :=
  let effective := if declared == "" then tbe (goExt filename) else declared
  (specMimeCategory effective).getD "unknown"

/-! ### Filename derivation (`getFilename`) -/

/-- Helper for `goBase`: drop trailing separators. -/
def dropTrailingSlashes : List Char → List Char
  | [] => []
  | c :: rest =>
    let rest' := dropTrailingSlashes rest
    if rest' = [] ∧ c = '/' then [] else c :: rest'

/-- Helper for `goBase`: keep everything after the last separator
(input and output reversed). -/
def afterLastSlashRev : List Char → List Char
  | [] => []
  | c :: rest => if c = '/' then [] else c :: afterLastSlashRev rest

/-- `filepath.Base` (Go, Unix): last element of the path after removing
trailing slashes; `"."` for the empty path, `"/"` when the path consists
entirely of separators. -/
def goBase (path : String) : String :=
  if path = "" then "."
  else
    let trimmed := dropTrailingSlashes path.data
    if trimmed = [] then "/"
    else String.mk (afterLastSlashRev trimmed.reverse).reverse

/-- `getFilename` from `main.go`: base name of the parsed URL's path,
percent-decoded via `url.QueryUnescape`; on a decode error the raw base
name is kept. `parsePath` is the oracle for `url.Parse(fileURL).Path`
and `queryUnescape` for `url.QueryUnescape` (`none` = error). -/
def getFilename (parsePath : String → String) (queryUnescape : String → Option String)
    (fileURL : String) : String :=
  let filename := goBase (parsePath fileURL)
  match queryUnescape filename with
  | none => filename
  | some decoded => decoded

/-! ### The fetch worker `startDownload` as an event-trace generator -/

/-- One iteration's worth of data from `resp.Body.Read(buf)` plus the
oracles the iteration consults: `n` bytes read (a read may legally return
0 bytes), whether `writer.Write(buf[:n])` succeeds, and
`time.Since(startTime).Seconds()` observed in that iteration. -/
structure Chunk where
  n : Nat
  writeOk : Bool
  elapsed : ℚ
deriving Repr, DecidableEq

/-- How the body stream ends after the listed chunks: `io.EOF`, or a
read error other than `io.EOF`. -/
inductive StreamEnd where
  | eof
  | readError
deriving Repr, DecidableEq

/-- An HTTP response as the worker observes it through Go's `net/http`:
declared `Content-Type`, `resp.ContentLength` (an `int64` that is `-1`
when the response declares no length), and the body stream. -/
structure HttpResponse where
  contentType : String
  contentLength : Int
  chunks : List Chunk
  ending : StreamEnd

/-- Registry mutations the worker performs (each one executed under
`downloadsMu` in the source). -/
inductive RegOp where
  | updateStatusOp (id status : String)
  | setMeta (id filename filepath : String) (sizeTotal : Int)
  | setSpeed (id : String) (speed : Int)
  | setProgress (id : String) (sizeCurrent : Int) (progress : ℚ)
deriving Repr, DecidableEq

/-- Filesystem operations the worker performs. -/
inductive FsOp where
  | mkdirAll (dir : String)
  | createTemp (path : String)
  | writeChunk (path : String) (n : Nat)
  | rename (src dst : String)
deriving Repr, DecidableEq

/-- One event of a worker run. -/
inductive Ev where
  | reg (op : RegOp)
  | fs (op : FsOp)
deriving Repr, DecidableEq

/-- The id a registry mutation addresses. -/
def RegOp.target : RegOp → String
  | .updateStatusOp id _ => id
  | .setMeta id _ _ _ => id
  | .setSpeed id _ => id
  | .setProgress id _ _ => id

/-- The effect of a registry mutation on the addressed record. -/
def regOpFun : RegOp → Download → Download
  | .updateStatusOp _ st => fun dl => { dl with status := st }
  | .setMeta _ fn fp tot => fun dl => { dl with filename := fn, filepath := fp, sizeTotal := tot }
  | .setSpeed _ sp => fun dl => { dl with speed := sp }
  | .setProgress _ cur p => fun dl => { dl with sizeCurrent := cur, progress := p }

/-- Update the record with the given id in place (`downloads[id].X = v`;
the Go map lookup plus field assignment). -/
def updateField (id : String) (f : Download → Download) (regs : List Download) : List Download :=
  regs.map (fun dl => if dl.id == id then f dl else dl)

/-- Apply one registry mutation to the registry. -/
def applyRegOp (regs : List Download) (op : RegOp) : List Download :=
  match op with
  | .updateStatusOp id st => updateStatus id st regs
  | _ => updateField op.target (regOpFun op) regs

/-- Apply one worker event to the registry (filesystem events leave it
unchanged). -/
def applyEv (regs : List Download) : Ev → List Download
  | .reg op => applyRegOp regs op
  | .fs _ => regs

/-- The download loop of `startDownload` (`main.go` lines 121–151) as an
event generator. State: bytes accumulated so far (`sizeCurrent`).
Per chunk with `n > 0`: write it (a write error publishes `failed` and
aborts), accumulate, publish speed when the observed elapsed time is
positive (`int64(float64(sizeCurrent) / duration)`), then publish
`sizeCurrent` and `progress = (sizeCurrent / sizeTotal) * 100` — the
division is unconditional in the source. Returns the events and whether
the loop reached `io.EOF` cleanly. -/
def streamEvents (id tempPath : String) (sizeTotal : Int) (sizeCurrent : Int) :
    List Chunk → StreamEnd → (List Ev × Bool)
  | [], .eof => ([], true)
  | [], .readError => ([.reg (.updateStatusOp id "failed")], false)
  | c :: rest, ending =>
    if c.n > 0 then
      if c.writeOk then
        let newCur := sizeCurrent + (c.n : Int)
        let speedEvs : List Ev :=
          if 0 < c.elapsed then [.reg (.setSpeed id ⌊(newCur : ℚ) / c.elapsed⌋)] else []
        let progress : ℚ := ((newCur : ℚ) / (sizeTotal : ℚ)) * 100
        let res := streamEvents id tempPath sizeTotal newCur rest ending
        (.fs (.writeChunk tempPath c.n) :: speedEvs ++ [.reg (.setProgress id newCur progress)] ++ res.1, res.2)
      else ([.reg (.updateStatusOp id "failed")], false)
    else
      streamEvents id tempPath sizeTotal sizeCurrent rest ending

/-- The worker's environment: the outcome of `http.Get` (`none` = transport
error), whether `os.Create(tempPath)` succeeds, and the standard-library
oracles used to derive the filename and infer a MIME type. -/
structure WorkerEnv where
  getResult : Option HttpResponse
  createOk : Bool
  tbe : String → String
  parsePath : String → String
  queryUnescape : String → Option String

/-- The `filename := getFilename(resp, fileURL)` value of a worker run
(the response is not consulted by `getFilename` in the source). -/
def workerFilename (env : WorkerEnv) (fileURL : String) : String :=
  getFilename env.parsePath env.queryUnescape fileURL

/-- The worker's `tempPath := filepath.Join(downloadDir, "temp", filename+".goloadtemp")`. -/
def workerTempPath (env : WorkerEnv) (fileURL : String) : String :=
  pathJoin (pathJoin downloadDir "temp") (workerFilename env fileURL ++ ".goloadtemp")

/-- The worker's `categoryDir := getCategoryDir(filename, resp.Header.Get("Content-Type"))`. -/
def workerCategoryDir (env : WorkerEnv) (fileURL : String) (resp : HttpResponse) : String :=
  getCategoryDir env.tbe (workerFilename env fileURL) resp.contentType

/-- The worker's `finalPath := filepath.Join(categoryDir, filename)`. -/
def workerFinalPath (env : WorkerEnv) (fileURL : String) (resp : HttpResponse) : String :=
  pathJoin (workerCategoryDir env fileURL resp) (workerFilename env fileURL)

/-- The record as it stands right after the worker's metadata publication
(`downloads[id].Filename/Filepath/SizeTotal = ...`), starting from `dl0`. -/
def metaRecord (env : WorkerEnv) (u : String) (resp : HttpResponse) (dl0 : Download) : Download :=
  { dl0 with
    filename := workerFilename env u
    filepath := workerFinalPath env u resp
    sizeTotal := resp.contentLength }

/-- `startDownload` from `main.go` as an event trace. Mirrors the source
line by line: on `http.Get` failure publish `failed` and stop; derive the
filename, category directory (with its `os.MkdirAll`), temp and final
paths; on `os.Create` failure publish `failed` and stop; publish
`Filename`/`Filepath`/`SizeTotal`; run the download loop; on clean EOF
call `os.Rename(tempPath, finalPath)` — its error is discarded — and
publish `completed`. -/
def startDownloadEvents (env : WorkerEnv) (id fileURL : String) : List Ev :=
  match env.getResult with
  | none => [.reg (.updateStatusOp id "failed")]
  | some resp =>
    let filename := workerFilename env fileURL
    let categoryDir := workerCategoryDir env fileURL resp
    let tempPath := workerTempPath env fileURL
    let finalPath := workerFinalPath env fileURL resp
    let pre : List Ev := [.fs (.mkdirAll categoryDir)]
    if env.createOk then
      let pre := pre ++ [.fs (.createTemp tempPath)]
      let meta : Ev := .reg (.setMeta id filename finalPath resp.contentLength)
      let res := streamEvents id tempPath resp.contentLength 0 resp.chunks resp.ending
      if res.2 then
        pre ++ [meta] ++ res.1 ++ [.fs (.rename tempPath finalPath), .reg (.updateStatusOp id "completed")]
      else pre ++ [meta] ++ res.1
    else pre ++ [.reg (.updateStatusOp id "failed")]

/-- Run the worker: fold its events over the registry. -/
def runWorker (env : WorkerEnv) (id fileURL : String) (regs : List Download) : List Download :=
  (startDownloadEvents env id fileURL).foldl applyEv regs

/-- The filesystem operations of an event trace. -/
def fsOps (evs : List Ev) : List FsOp :=
  evs.filterMap (fun e => match e with | .fs op => some op | .reg _ => none)

/-- The status writes of an event trace, as (id, status) pairs. -/
def statusWrites (evs : List Ev) : List (String × String) :=
  evs.filterMap (fun e => match e with
    | .reg (.updateStatusOp i st) => some (i, st)
    | _ => none)

/-- The composite effect of a trace's registry mutations on one record. -/
def foldRecord (evs : List Ev) (dl : Download) : Download :=
  evs.foldl (fun d e => match e with | .reg op => regOpFun op d | .fs _ => d) dl

/-- The record with the given id (Go `downloads[id]`). -/
def findById (id : String) (regs : List Download) : Option Download :=
  regs.find? (fun dl => dl.id == id)

/-- Total bytes delivered by a chunk sequence. -/
def sumN (chunks : List Chunk) : Int :=
  chunks.foldr (fun c acc => (c.n : Int) + acc) 0

/-- Every chunk's write succeeds. -/
def allWritesOk (chunks : List Chunk) : Bool :=
  chunks.all (fun c => c.writeOk)

/-- Effect of one filesystem operation on "a file exists at `p`":
`os.Create` creates its path, a successful rename moves `src` to `dst`, a
failed rename changes nothing (POSIX semantics), directory creation and
writes to an existing file change nothing. -/
def fsStep (renameOk : Bool) (p : String) (ex : Bool) : FsOp → Bool
  | .createTemp q => if p = q then true else ex
  | .rename src dst =>
    if renameOk then (if p = dst then true else if p = src then false else ex) else ex
  | _ => ex

/-- Whether a file exists at path `p` after the trace's filesystem
operations, given whether the `os.Rename` call succeeds (`renameOk`) and
assuming no file at `p` beforehand. -/
def fileAtAfter (renameOk : Bool) (evs : List Ev) (p : String) : Bool :=
  (fsOps evs).foldl (fsStep renameOk p) false

/-- Whether the trace attempts the final `os.Rename`. -/
def renameAttempted (evs : List Ev) : Bool :=
  (fsOps evs).any (fun op => match op with | .rename _ _ => true | _ => false)

/-- An event that addresses `id` (filesystem events address no record). -/
def targetsId (id : String) : Ev → Prop
  | .reg op => op.target = id
  | .fs _ => True

/-- The per-record effect of one event. -/
def evFun : Ev → Download → Download
  | .reg op => regOpFun op
  | .fs _ => fun dl => dl

/-- The possible event shapes of the download loop's trace: chunk writes
to the temp file, speed and progress publications for the record, and the
`failed` transition. -/
def streamEvShape (id tp : String) (e : Ev) : Prop :=
  (∃ n, e = Ev.fs (FsOp.writeChunk tp n)) ∨ (∃ sp, e = Ev.reg (RegOp.setSpeed id sp)) ∨
  (∃ cur p, e = Ev.reg (RegOp.setProgress id cur p)) ∨
  e = Ev.reg (RegOp.updateStatusOp id "failed")

/-! ### Concrete instances used in witnesses and counterexamples -/

/-- A worker environment whose `http.Get` fails. -/
def envGetFail : WorkerEnv :=
  ⟨none, true, fun _ => "", fun s => s, fun s => some s⟩

/-- A completed record whose backing file no longer exists. -/
def sweptCompletedRec : Download :=
  ⟨"1", "http://h/f", "f", "/home/user/Downloads/GoLoad/videos/f", "completed", 5, 5, 100, 1⟩

/-- A failed record used in witnesses. -/
def failedRec : Download := ⟨"2", "http://h/g", "g", "/x", "failed", 0, 0, 0, 0⟩

/-- Environment: a response with no declared length (Go's `net/http` sets
`resp.ContentLength = -1`) delivering one 1-byte chunk and then `io.EOF`. -/
def envUnknownLen : WorkerEnv :=
  ⟨some ⟨"", -1, [⟨1, true, 0⟩], StreamEnd.eof⟩, true, fun _ => "", fun s => s, fun s => some s⟩

/-- Environment: a response with no declared length and an empty body. -/
def envNoLength : WorkerEnv :=
  ⟨some ⟨"", -1, [], StreamEnd.eof⟩, true, fun _ => "", fun s => s, fun s => some s⟩

/-- Environment: a 100-byte `video/mp4` response delivered in one chunk. -/
def envMp4 : WorkerEnv :=
  ⟨some ⟨"video/mp4", 100, [⟨100, true, 1⟩], StreamEnd.eof⟩, true,
    fun _ => "", fun s => s, fun s => some s⟩

/-- Environment: a successful 7-byte download whose final rename fails. -/
def envRenameFail : WorkerEnv :=
  ⟨some ⟨"video/mp4", 7, [⟨7, true, 1⟩], StreamEnd.eof⟩, true,
    fun _ => "", fun s => s, fun s => some s⟩

/-! ### Helper lemmas -/

/-- `find?` returns the unique element satisfying the predicate. -/
theorem find?_eq_some_of_unique {α : Type} (p : α → Bool) (l : List α) (x : α)
    (hmem : x ∈ l) (hx : p x = true) (huniq : ∀ y ∈ l, p y = true → y = x) :
    l.find? p = some x := by
  induction l with
  | nil => cases hmem
  | cons a l ih =>
    by_cases ha : p a = true
    · have hax : a = x := huniq a (List.mem_cons_self a l) ha
      subst hax
      simp [List.find?_cons_of_pos, ha]
    · have hax : a ≠ x := fun h => ha (h ▸ hx)
      have hmem' : x ∈ l := by
        rcases List.mem_cons.mp hmem with h | h
        · exact absurd h.symm hax
        · exact h
      rw [List.find?_cons_of_neg _ ha]
      exact ih hmem' (fun y hy hpy => huniq y (List.mem_cons_of_mem a hy) hpy)

/-- Every registry mutation preserves the `id` of the record it rewrites. -/
theorem regOpFun_id (op : RegOp) (dl : Download) : (regOpFun op dl).id = dl.id := by
  cases op <;> rfl

/-- `applyRegOp` is `updateField` at the op's target with the op's effect. -/
theorem applyRegOp_eq_updateField (regs : List Download) (op : RegOp) :
    applyRegOp regs op = updateField op.target (regOpFun op) regs := by
  cases op <;> rfl

/-- Looking up `id` after an in-place update at `id` applies the update to
the looked-up record. -/
theorem findById_updateField (id : String) (f : Download → Download)
    (hf : ∀ dl, (f dl).id = dl.id) (regs : List Download) :
    findById id (updateField id f regs) = (findById id regs).map f := by
  induction regs with
  | nil => rfl
  | cons a l ih =>
    by_cases ha : a.id = id
    · have h1 : (a.id == id) = true := by simp [ha]
      have h2 : ((f a).id == id) = true := by simp [hf a, ha]
      simp only [findById, updateField, List.map]
      rw [if_pos h1]
      have e1 : List.find? (fun dl => dl.id == id)
          (f a :: List.map (fun dl => if dl.id == id then f dl else dl) l) = some (f a) :=
        List.find?_cons_of_pos _ h2
      have e2 : List.find? (fun dl => dl.id == id) (a :: l) = some a :=
        List.find?_cons_of_pos _ h1
      rw [e1, e2]
      rfl
    · have h1 : (a.id == id) = false := by simp [ha]
      simp only [findById, updateField, List.map]
      rw [if_neg (by simp [h1]), List.find?_cons_of_neg _ (by simp [h1]),
        List.find?_cons_of_neg _ (by simp [h1])]
      simpa [findById, updateField] using ih

/-- Folding a trace whose registry mutations all address `id` over the
registry acts on the record with id `id` by `foldRecord`. -/
theorem findById_foldl (id : String) (evs : List Ev)
    (h : ∀ e ∈ evs, targetsId id e) (regs : List Download) :
    findById id (evs.foldl applyEv regs) = (findById id regs).map (foldRecord evs) := by
  induction evs generalizing regs with
  | nil =>
    rw [List.foldl_nil]
    cases findById id regs <;> simp [foldRecord]
  | cons e l ih =>
    have he : targetsId id e := h e (List.mem_cons_self e l)
    have hl : ∀ e' ∈ l, targetsId id e' := fun e' h' => h e' (List.mem_cons_of_mem e h')
    cases e with
    | fs op =>
      have : foldRecord (Ev.fs op :: l) = foldRecord l := by
        funext dl; simp [foldRecord]
      rw [List.foldl_cons, this]
      exact ih hl _
    | reg op =>
      have htgt : op.target = id := he
      rw [List.foldl_cons]
      have h1 : applyEv regs (Ev.reg op) = updateField id (regOpFun op) regs := by
        simp [applyEv, applyRegOp_eq_updateField, htgt]
      rw [h1, ih hl, findById_updateField id (regOpFun op) (regOpFun_id op)]
      cases findById id regs <;> simp [foldRecord]

/-- `foldRecord` over an appended trace composes. -/
theorem foldRecord_append (a b : List Ev) (dl : Download) :
    foldRecord (a ++ b) dl = foldRecord b (foldRecord a dl) := by
  simp [foldRecord, List.foldl_append]

/-- `foldRecord` over a cons. -/
theorem foldRecord_cons (e : Ev) (l : List Ev) (dl : Download) :
    foldRecord (e :: l) dl = foldRecord l (evFun e dl) := by
  cases e <;> rfl

/-- `statusWrites` of the empty trace. -/
theorem statusWrites_nil : statusWrites [] = [] := rfl

/-- `statusWrites` distributes over append. -/
theorem statusWrites_append (a b : List Ev) :
    statusWrites (a ++ b) = statusWrites a ++ statusWrites b := by
  simp [statusWrites, List.filterMap_append]

/-- Filesystem events contribute no status write. -/
theorem statusWrites_cons_fs (op : FsOp) (evs : List Ev) :
    statusWrites (Ev.fs op :: evs) = statusWrites evs := rfl

/-- Speed publications contribute no status write. -/
theorem statusWrites_cons_setSpeed (i : String) (sp : Int) (evs : List Ev) :
    statusWrites (Ev.reg (RegOp.setSpeed i sp) :: evs) = statusWrites evs := rfl

/-- Progress publications contribute no status write. -/
theorem statusWrites_cons_setProgress (i : String) (cur : Int) (p : ℚ) (evs : List Ev) :
    statusWrites (Ev.reg (RegOp.setProgress i cur p) :: evs) = statusWrites evs := rfl

/-- Metadata publications contribute no status write. -/
theorem statusWrites_cons_setMeta (i fn fp : String) (tot : Int) (evs : List Ev) :
    statusWrites (Ev.reg (RegOp.setMeta i fn fp tot) :: evs) = statusWrites evs := rfl

/-- A status write shows up in `statusWrites`. -/
theorem statusWrites_cons_update (i st : String) (evs : List Ev) :
    statusWrites (Ev.reg (RegOp.updateStatusOp i st) :: evs) = (i, st) :: statusWrites evs := rfl

/-- `fsOps` distributes over append. -/
theorem fsOps_append (a b : List Ev) : fsOps (a ++ b) = fsOps a ++ fsOps b := by
  simp [fsOps, List.filterMap_append]

/-- Unfolding equation: empty stream ending in `io.EOF`. -/
theorem streamEvents_nil_eof (id tp : String) (T s : Int) :
    streamEvents id tp T s [] StreamEnd.eof = ([], true) := rfl

/-- Unfolding equation: empty stream ending in a read error. -/
theorem streamEvents_nil_err (id tp : String) (T s : Int) :
    streamEvents id tp T s [] StreamEnd.readError =
      ([Ev.reg (RegOp.updateStatusOp id "failed")], false) := rfl

/-- Unfolding equation: a non-empty chunk whose write succeeds. -/
theorem streamEvents_cons_of_pos (id tp : String) (T s : Int) (c : Chunk)
    (rest : List Chunk) (ending : StreamEnd) (hn : c.n > 0) (hw : c.writeOk = true) :
    streamEvents id tp T s (c :: rest) ending =
      (Ev.fs (FsOp.writeChunk tp c.n) ::
        (if 0 < c.elapsed then
          [Ev.reg (RegOp.setSpeed id ⌊((s + (c.n : Int) : Int) : ℚ) / c.elapsed⌋)] else []) ++
        [Ev.reg (RegOp.setProgress id (s + (c.n : Int))
          (((s + (c.n : Int) : Int) : ℚ) / (T : ℚ) * 100))] ++
        (streamEvents id tp T (s + (c.n : Int)) rest ending).1,
       (streamEvents id tp T (s + (c.n : Int)) rest ending).2) := by
  simp [streamEvents, hn, hw]

/-- Unfolding equation: a non-empty chunk whose write fails. -/
theorem streamEvents_cons_of_writeFail (id tp : String) (T s : Int) (c : Chunk)
    (rest : List Chunk) (ending : StreamEnd) (hn : c.n > 0) (hw : c.writeOk = false) :
    streamEvents id tp T s (c :: rest) ending =
      ([Ev.reg (RegOp.updateStatusOp id "failed")], false) := by
  simp [streamEvents, hn, hw]

/-- Unfolding equation: a zero-byte read is skipped. -/
theorem streamEvents_cons_of_zero (id tp : String) (T s : Int) (c : Chunk)
    (rest : List Chunk) (ending : StreamEnd) (hn : ¬c.n > 0) :
    streamEvents id tp T s (c :: rest) ending =
      streamEvents id tp T s rest ending := by
  simp [streamEvents, hn]

/-- Every event the download loop emits has one of the four shapes of
`streamEvShape`. -/
theorem streamEvents_shape (id tp : String) (T : Int) :
    ∀ (chunks : List Chunk) (ending : StreamEnd) (s : Int),
      ∀ e ∈ (streamEvents id tp T s chunks ending).1, streamEvShape id tp e := by
  intro chunks
  induction chunks with
  | nil =>
    intro ending s e he
    cases ending with
    | eof => simp [streamEvents_nil_eof] at he
    | readError =>
      rw [streamEvents_nil_err] at he
      rw [List.mem_singleton] at he
      subst he
      exact Or.inr (Or.inr (Or.inr rfl))
  | cons c rest ih =>
    intro ending s e he
    by_cases hn : c.n > 0
    · by_cases hw : c.writeOk = true
      · rw [streamEvents_cons_of_pos id tp T s c rest ending hn hw] at he
        rcases List.mem_cons.mp he with rfl | he
        · exact Or.inl ⟨c.n, rfl⟩
        rcases List.mem_append.mp he with he | he
        · rcases List.mem_append.mp he with he | he
          · by_cases helapsed : (0 : ℚ) < c.elapsed
            · rw [if_pos helapsed, List.mem_singleton] at he
              subst he
              exact Or.inr (Or.inl ⟨_, rfl⟩)
            · rw [if_neg helapsed] at he
              cases he
          · rw [List.mem_singleton] at he
            subst he
            exact Or.inr (Or.inr (Or.inl ⟨_, _, rfl⟩))
        · exact ih ending _ e he
      · have hw' : c.writeOk = false := by
          cases h : c.writeOk
          · rfl
          · exact absurd h hw
        rw [streamEvents_cons_of_writeFail id tp T s c rest ending hn hw'] at he
        rw [List.mem_singleton] at he
        subst he
        exact Or.inr (Or.inr (Or.inr rfl))
    · rw [streamEvents_cons_of_zero id tp T s c rest ending hn] at he
      exact ih ending _ e he

/-- Every stream-shaped event addresses the worker's own record. -/
theorem streamEvShape_targets (id tp : String) (e : Ev) (h : streamEvShape id tp e) :
    targetsId id e := by
  rcases h with ⟨n, rfl⟩ | ⟨sp, rfl⟩ | ⟨cur, p, rfl⟩ | rfl <;> trivial

/-- Stream-shaped events never touch `sizeTotal`, `filename`, `filepath`,
`id` or `url` of a record. -/
theorem foldRecord_shape_meta (id tp : String) (evs : List Ev)
    (h : ∀ e ∈ evs, streamEvShape id tp e) (dl : Download) :
    (foldRecord evs dl).sizeTotal = dl.sizeTotal ∧
    (foldRecord evs dl).filename = dl.filename ∧
    (foldRecord evs dl).filepath = dl.filepath ∧
    (foldRecord evs dl).id = dl.id ∧ (foldRecord evs dl).url = dl.url := by
  induction evs generalizing dl with
  | nil => simp [foldRecord]
  | cons e l ih =>
    have he := h e (List.mem_cons_self e l)
    have hl : ∀ e' ∈ l, streamEvShape id tp e' := fun e' h' => h e' (List.mem_cons_of_mem e h')
    rw [foldRecord_cons]
    rcases he with ⟨n, rfl⟩ | ⟨sp, rfl⟩ | ⟨cur, p, rfl⟩ | rfl <;>
      simpa [evFun, regOpFun] using ih hl _

/-- The download loop's trace contains exactly one status write — `failed`,
to the worker's own record — when the loop aborts, and none when it reaches
`io.EOF` cleanly. -/
theorem streamEvents_statusWrites (id tp : String) (T : Int) :
    ∀ (chunks : List Chunk) (ending : StreamEnd) (s : Int),
      statusWrites (streamEvents id tp T s chunks ending).1 =
        (if (streamEvents id tp T s chunks ending).2 then [] else [(id, "failed")]) := by
  intro chunks
  induction chunks with
  | nil =>
    intro ending s
    cases ending <;> rfl
  | cons c rest ih =>
    intro ending s
    by_cases hn : c.n > 0
    · by_cases hw : c.writeOk = true
      · rw [streamEvents_cons_of_pos id tp T s c rest ending hn hw]
        by_cases helapsed : (0 : ℚ) < c.elapsed
        · rw [if_pos helapsed]
          dsimp only
          simp only [statusWrites_cons_fs, statusWrites_append, statusWrites_cons_setSpeed,
            statusWrites_cons_setProgress, statusWrites_nil, List.nil_append, List.append_nil]
          exact ih ending _
        · rw [if_neg helapsed]
          dsimp only
          simp only [statusWrites_cons_fs, statusWrites_append, statusWrites_cons_setProgress,
            statusWrites_nil, List.nil_append, List.append_nil]
          exact ih ending _
      · have hw' : c.writeOk = false := by
          cases h : c.writeOk
          · rfl
          · exact absurd h hw
        rw [streamEvents_cons_of_writeFail id tp T s c rest ending hn hw']
        rfl
    · rw [streamEvents_cons_of_zero id tp T s c rest ending hn]
      exact ih ending s

/-- Success-run invariant of the download loop: when every write succeeds
and the stream ends in `io.EOF`, the loop reports a clean finish, the
record's `sizeCurrent` advances by exactly the delivered bytes, its
`progress` is the last published `(sizeCurrent / sizeTotal) * 100` (or is
untouched when no byte arrived), and its `status` is untouched. -/
theorem streamEvents_ok_spec (id tp : String) (T : Int) :
    ∀ (chunks : List Chunk) (ending : StreamEnd) (s : Int) (dl : Download),
      allWritesOk chunks = true → ending = StreamEnd.eof → dl.sizeCurrent = s →
      (streamEvents id tp T s chunks ending).2 = true ∧
      (foldRecord (streamEvents id tp T s chunks ending).1 dl).sizeCurrent = s + sumN chunks ∧
      ((foldRecord (streamEvents id tp T s chunks ending).1 dl).progress =
          ((s + sumN chunks : Int) : ℚ) / (T : ℚ) * 100 ∨
        (sumN chunks = 0 ∧
          (foldRecord (streamEvents id tp T s chunks ending).1 dl).progress = dl.progress)) ∧
      (foldRecord (streamEvents id tp T s chunks ending).1 dl).status = dl.status := by
  intro chunks
  induction chunks with
  | nil =>
    intro ending s dl _ hend hcur
    subst hend
    rw [streamEvents_nil_eof]
    refine ⟨rfl, ?_, ?_, rfl⟩
    · simp [foldRecord, sumN, hcur]
    · exact Or.inr ⟨rfl, rfl⟩
  | cons c rest ih =>
    intro ending s dl hws hend hcur
    have hws' : (c.writeOk && allWritesOk rest) = true := hws
    rw [Bool.and_eq_true] at hws'
    obtain ⟨hcw, hrest⟩ := hws'
    have hsumcons : sumN (c :: rest) = (c.n : Int) + sumN rest := rfl
    by_cases hn : c.n > 0
    · rw [streamEvents_cons_of_pos id tp T s c rest ending hn hcw]
      dsimp only
      set speedEvs : List Ev :=
        (if 0 < c.elapsed then
          [Ev.reg (RegOp.setSpeed id ⌊((s + (c.n : Int) : Int) : ℚ) / c.elapsed⌋)] else []) with hspeed
      set prog : ℚ := ((s + (c.n : Int) : Int) : ℚ) / (T : ℚ) * 100 with hprog
      have hdl1fields : (foldRecord speedEvs dl).sizeCurrent = dl.sizeCurrent ∧
          (foldRecord speedEvs dl).progress = dl.progress ∧
          (foldRecord speedEvs dl).status = dl.status := by
        rw [hspeed]
        by_cases helapsed : (0 : ℚ) < c.elapsed
        · rw [if_pos helapsed]
          exact ⟨rfl, rfl, rfl⟩
        · rw [if_neg helapsed]
          exact ⟨rfl, rfl, rfl⟩
      set dl2 : Download :=
        { foldRecord speedEvs dl with sizeCurrent := s + (c.n : Int), progress := prog } with hdl2
      have hfold : ∀ evs : List Ev,
          foldRecord (Ev.fs (FsOp.writeChunk tp c.n) :: speedEvs ++
            [Ev.reg (RegOp.setProgress id (s + (c.n : Int)) prog)] ++ evs) dl =
          foldRecord evs dl2 := by
        intro evs
        calc foldRecord (Ev.fs (FsOp.writeChunk tp c.n) :: speedEvs ++
                [Ev.reg (RegOp.setProgress id (s + (c.n : Int)) prog)] ++ evs) dl
            = foldRecord ((speedEvs ++
                [Ev.reg (RegOp.setProgress id (s + (c.n : Int)) prog)]) ++ evs) dl := rfl
          _ = foldRecord evs (foldRecord (speedEvs ++
                [Ev.reg (RegOp.setProgress id (s + (c.n : Int)) prog)]) dl) :=
              foldRecord_append _ _ _
          _ = foldRecord evs dl2 := by
              rw [foldRecord_append]
              rfl
      rw [hfold]
      have hdl2cur : dl2.sizeCurrent = s + (c.n : Int) := rfl
      obtain ⟨hok, hcur2, hprog2, hstat2⟩ :=
        ih ending (s + (c.n : Int)) dl2 hrest hend hdl2cur
      refine ⟨hok, ?_, ?_, ?_⟩
      · rw [hcur2, hsumcons]
        ring
      · rcases hprog2 with h | ⟨hz, h⟩
        · left
          rw [h]
          have harith : s + (c.n : Int) + sumN rest = s + sumN (c :: rest) := by
            rw [hsumcons]
            ring
          rw [harith]
        · left
          rw [h]
          have hd : dl2.progress = prog := rfl
          rw [hd, hprog]
          have harith : s + (c.n : Int) = s + sumN (c :: rest) := by
            rw [hsumcons, hz]
            ring
          rw [harith]
      · rw [hstat2]
        have hd : dl2.status = (foldRecord speedEvs dl).status := rfl
        rw [hd]
        exact hdl1fields.2.2
    · rw [streamEvents_cons_of_zero id tp T s c rest ending hn]
      have hn0 : c.n = 0 := by omega
      have hs0 : sumN (c :: rest) = sumN rest := by
        rw [hsumcons, hn0]
        simp
      rw [hs0]
      exact ih ending s dl hrest hend hcur

/-- Unfolding equation: transport-level `http.Get` failure. -/
theorem startDownloadEvents_getFail (env : WorkerEnv) (id u : String)
    (h : env.getResult = none) :
    startDownloadEvents env id u = [Ev.reg (RegOp.updateStatusOp id "failed")] := by
  simp [startDownloadEvents, h]

/-- Unfolding equation: `os.Create` failure. -/
theorem startDownloadEvents_createFail (env : WorkerEnv) (id u : String)
    (resp : HttpResponse) (hr : env.getResult = some resp) (hc : env.createOk = false) :
    startDownloadEvents env id u =
      [Ev.fs (FsOp.mkdirAll (workerCategoryDir env u resp)),
       Ev.reg (RegOp.updateStatusOp id "failed")] := by
  simp [startDownloadEvents, hr, hc]

/-- Unfolding equation: the worker's trace when the loop finishes cleanly. -/
theorem startDownloadEvents_ok (env : WorkerEnv) (id u : String) (resp : HttpResponse)
    (hr : env.getResult = some resp) (hc : env.createOk = true)
    (hok : (streamEvents id (workerTempPath env u) resp.contentLength 0
      resp.chunks resp.ending).2 = true) :
    startDownloadEvents env id u =
      [Ev.fs (FsOp.mkdirAll (workerCategoryDir env u resp)),
       Ev.fs (FsOp.createTemp (workerTempPath env u)),
       Ev.reg (RegOp.setMeta id (workerFilename env u) (workerFinalPath env u resp)
         resp.contentLength)] ++
      (streamEvents id (workerTempPath env u) resp.contentLength 0
        resp.chunks resp.ending).1 ++
      [Ev.fs (FsOp.rename (workerTempPath env u) (workerFinalPath env u resp)),
       Ev.reg (RegOp.updateStatusOp id "completed")] := by
  simp [startDownloadEvents, hr, hc, hok]

/-- Unfolding equation: the worker's trace when the loop aborts. -/
theorem startDownloadEvents_notOk (env : WorkerEnv) (id u : String) (resp : HttpResponse)
    (hr : env.getResult = some resp) (hc : env.createOk = true)
    (hok : (streamEvents id (workerTempPath env u) resp.contentLength 0
      resp.chunks resp.ending).2 = false) :
    startDownloadEvents env id u =
      [Ev.fs (FsOp.mkdirAll (workerCategoryDir env u resp)),
       Ev.fs (FsOp.createTemp (workerTempPath env u)),
       Ev.reg (RegOp.setMeta id (workerFilename env u) (workerFinalPath env u resp)
         resp.contentLength)] ++
      (streamEvents id (workerTempPath env u) resp.contentLength 0
        resp.chunks resp.ending).1 := by
  simp [startDownloadEvents, hr, hc, hok]

/-- Every registry mutation of a worker's trace addresses the worker's own
record. -/
theorem startDownloadEvents_targets (env : WorkerEnv) (id u : String) :
    ∀ e ∈ startDownloadEvents env id u, targetsId id e := by
  intro e he
  cases hr : env.getResult with
  | none =>
    rw [startDownloadEvents_getFail env id u hr, List.mem_singleton] at he
    subst he
    trivial
  | some resp =>
    cases hc : env.createOk with
    | false =>
      rw [startDownloadEvents_createFail env id u resp hr hc] at he
      rcases List.mem_cons.mp he with rfl | he
      · trivial
      rw [List.mem_singleton] at he
      subst he
      trivial
    | true =>
      cases hok : (streamEvents id (workerTempPath env u) resp.contentLength 0
          resp.chunks resp.ending).2 with
      | true =>
        rw [startDownloadEvents_ok env id u resp hr hc hok] at he
        rcases List.mem_append.mp he with he | he
        · rcases List.mem_append.mp he with he | he
          · rcases List.mem_cons.mp he with rfl | he
            · trivial
            rcases List.mem_cons.mp he with rfl | he
            · trivial
            rw [List.mem_singleton] at he
            subst he
            trivial
          · exact streamEvShape_targets id _ e
              (streamEvents_shape id _ resp.contentLength resp.chunks resp.ending 0 e he)
        · rcases List.mem_cons.mp he with rfl | he
          · trivial
          rw [List.mem_singleton] at he
          subst he
          trivial
      | false =>
        rw [startDownloadEvents_notOk env id u resp hr hc hok] at he
        rcases List.mem_append.mp he with he | he
        · rcases List.mem_cons.mp he with rfl | he
          · trivial
          rcases List.mem_cons.mp he with rfl | he
          · trivial
          rw [List.mem_singleton] at he
          subst he
          trivial
        · exact streamEvShape_targets id _ e
            (streamEvents_shape id _ resp.contentLength resp.chunks resp.ending 0 e he)

/-- A worker run publishes exactly one status transition: `completed` or
`failed`, always for its own record. -/
theorem startDownloadEvents_statusWrites (env : WorkerEnv) (id u : String) :
    statusWrites (startDownloadEvents env id u) = [(id, "completed")] ∨
    statusWrites (startDownloadEvents env id u) = [(id, "failed")] := by
  cases hr : env.getResult with
  | none =>
    right
    rw [startDownloadEvents_getFail env id u hr]
    rfl
  | some resp =>
    cases hc : env.createOk with
    | false =>
      right
      rw [startDownloadEvents_createFail env id u resp hr hc]
      rfl
    | true =>
      have hsw := streamEvents_statusWrites id (workerTempPath env u) resp.contentLength
        resp.chunks resp.ending 0
      cases hok : (streamEvents id (workerTempPath env u) resp.contentLength 0
          resp.chunks resp.ending).2 with
      | true =>
        left
        rw [startDownloadEvents_ok env id u resp hr hc hok]
        rw [statusWrites_append, statusWrites_append]
        rw [hok, if_pos rfl] at hsw
        rw [hsw]
        rfl
      | false =>
        right
        rw [startDownloadEvents_notOk env id u resp hr hc hok]
        rw [statusWrites_append]
        rw [hok] at hsw
        simp only [Bool.false_eq_true, if_false] at hsw
        rw [hsw]
        rfl

/-- The Boolean sweep condition, read as a proposition. -/
theorem shouldSweep_false_iff (notExist : String → Bool) (dl : Download) :
    shouldSweep notExist dl = false ↔
      ¬(dl.filepath ≠ "" ∧ dl.status = "completed" ∧ notExist dl.filepath = true) := by
  simp [shouldSweep, and_assoc]

/-! ### Claim theorems -/

/-- C9: The categorizer is a pure mapping from (filename, declared MIME
type) to a category: `video/mp4` and `video/x-matroska` map to videos;
`audio/mpeg`, `audio/wav` and `audio/flac` map to audio; `application/zip`
and `application/x-rar-compressed` map to compressed; when the declared
MIME type is empty it is first replaced by the standard MIME type inferred
from the filename's extension; every other case maps to unknown. The
source-derived `getCategory` coincides with the spec-worded
`specCategorize` on every input. -/
theorem getCategory_matches_spec (tbe : String → String) (filename mimeType : String) :
    getCategory tbe filename mimeType = specCategorize tbe filename mimeType := by
  unfold getCategory specCategorize specMimeCategory
  dsimp only
  split_ifs <;> rfl

/-- C1: Submitting a URL while a non-removed record with that URL exists
(the first submission still in_progress or completed, and not removed by
the invalidation sweep) returns the same id as the first submission,
reports that the download already exists, creates no second record, and
starts no new worker. -/
theorem addDownload_existing_url (notExist : String → Bool) (freshId u : String)
    (regs : List Download) (r : Download)
    (hmem : r ∈ regs) (hurl : r.url = u)
    (_hstat : r.status = "in_progress" ∨ r.status = "completed")
    (hkeep : shouldSweep notExist r = false)
    (huniq : ∀ r' ∈ regs, r'.url = u → r' = r) :
    addDownload notExist freshId u regs =
      ⟨"Download already exists", r.id, cleanInvalidDownloads notExist regs, false⟩ := by
  have hmem' : r ∈ cleanInvalidDownloads notExist regs := by
    rw [cleanInvalidDownloads, List.mem_filter]
    exact ⟨hmem, by rw [hkeep]; rfl⟩
  have hfind : (cleanInvalidDownloads notExist regs).find? (fun dl => dl.url == u) = some r := by
    apply find?_eq_some_of_unique _ _ _ hmem' (by simp [hurl])
    intro y hy hpy
    exact huniq y (List.mem_of_mem_filter hy) (by simpa using hpy)
  rw [addDownload]
  rw [hfind]

/-- C1 witness: a concrete second submission of an in-progress URL. -/
theorem addDownload_existing_url_witness :
    addDownload (fun _ => false) "99" "http://h/f" [initialDownload "42" "http://h/f"] =
      ⟨"Download already exists", "42", [initialDownload "42" "http://h/f"], false⟩ :=
  addDownload_existing_url (fun _ => false) "99" "http://h/f"
    [initialDownload "42" "http://h/f"] (initialDownload "42" "http://h/f")
    (by simp) rfl (Or.inl rfl) (by decide)
    (by intro r' hr' _; simpa using hr')

/-- C2: If the initial `http.Get` fails at the transport level, the worker
sets the record's status to `failed`, leaves every other field at its
initial value (`size_current = 0`, `size_total = 0`, empty filename and
filepath), and exits having performed no filesystem operation. -/
theorem startDownload_transportFail (env : WorkerEnv) (id u : String)
    (h : env.getResult = none) :
    runWorker env id u [initialDownload id u] =
      [⟨id, u, "", "", "failed", 0, 0, 0, 0⟩] ∧
    fsOps (startDownloadEvents env id u) = [] := by
  constructor
  · rw [runWorker, startDownloadEvents_getFail env id u h]
    show updateStatus id "failed" [initialDownload id u] = _
    simp [updateStatus, initialDownload]
  · rw [startDownloadEvents_getFail env id u h]
    rfl

/-- C2 witness: an unreachable host leaves a failed, otherwise pristine
record and an empty filesystem trace. -/
theorem startDownload_transportFail_witness :
    runWorker envGetFail "1" "http://unreachable/f"
      [initialDownload "1" "http://unreachable/f"] =
      [⟨"1", "http://unreachable/f", "", "", "failed", 0, 0, 0, 0⟩] ∧
    fsOps (startDownloadEvents envGetFail "1" "http://unreachable/f") = [] :=
  startDownload_transportFail envGetFail "1" "http://unreachable/f" rfl

/-- C3 counterexample: `clearFailed` runs the invalidation sweep first, so
a non-failed (completed) record whose file vanished is removed — refuting
the claim that every record whose status is not failed is still present. -/
theorem clearFailed_removes_nonfailed :
    sweptCompletedRec.status ≠ "failed" ∧
    clearFailedReg (fun _ => true) [sweptCompletedRec] = [] := by
  decide

/-- C3 amended: after `clearFailed` no failed record remains, the surviving
records are an unchanged subsequence of the originals, and every record
that is neither failed nor removed by the invalidation sweep (a completed
record whose file vanished) is still present. -/
theorem clearFailed_spec (notExist : String → Bool) (regs : List Download) :
    (∀ dl ∈ clearFailedReg notExist regs, dl.status ≠ "failed") ∧
    (clearFailedReg notExist regs).Sublist regs ∧
    (∀ dl ∈ regs, dl.status ≠ "failed" → shouldSweep notExist dl = false →
      dl ∈ clearFailedReg notExist regs) := by
  refine ⟨?_, ?_, ?_⟩
  · intro dl hdl
    rw [clearFailedReg, List.mem_filter] at hdl
    simpa using hdl.2
  · exact (List.filter_sublist _).trans (List.filter_sublist _)
  · intro dl hdl hst hsw
    rw [clearFailedReg, List.mem_filter]
    refine ⟨?_, by simpa using hst⟩
    rw [cleanInvalidDownloads, List.mem_filter]
    exact ⟨hdl, by rw [hsw]; rfl⟩

/-- C3 witness: an in-progress record survives `clearFailed`. -/
theorem clearFailed_spec_witness :
    initialDownload "1" "u" ∈ clearFailedReg (fun _ => false) [initialDownload "1" "u"] :=
  (clearFailed_spec (fun _ => false) [initialDownload "1" "u"]).2.2
    (initialDownload "1" "u") (by simp) (by decide) (by decide)

/-- C4: The invalidation sweep removes exactly the records that are
completed, have a non-empty filepath, and whose file no longer exists;
every other record — in particular every failed or in_progress record —
is kept unchanged, and a swept completed record is absent from the next
`List` result. -/
theorem cleanInvalid_spec (notExist : String → Bool) (regs : List Download) :
    (∀ dl, dl ∈ cleanInvalidDownloads notExist regs ↔
      dl ∈ regs ∧ ¬(dl.filepath ≠ "" ∧ dl.status = "completed" ∧ notExist dl.filepath = true)) ∧
    (cleanInvalidDownloads notExist regs).Sublist regs ∧
    (∀ dl ∈ regs, dl.status = "failed" ∨ dl.status = "in_progress" →
      dl ∈ cleanInvalidDownloads notExist regs) ∧
    (∀ dl ∈ regs, dl.status = "completed" → dl.filepath ≠ "" → notExist dl.filepath = true →
      dl ∉ getDownloadsList notExist regs) := by
  have hmemiff : ∀ dl, dl ∈ cleanInvalidDownloads notExist regs ↔
      dl ∈ regs ∧ ¬(dl.filepath ≠ "" ∧ dl.status = "completed" ∧ notExist dl.filepath = true) := by
    intro dl
    rw [cleanInvalidDownloads, List.mem_filter, Bool.not_eq_true',
      shouldSweep_false_iff]
  refine ⟨hmemiff, List.filter_sublist _, ?_, ?_⟩
  · intro dl hdl hst
    rw [hmemiff]
    refine ⟨hdl, ?_⟩
    rintro ⟨-, hcomp, -⟩
    rcases hst with h | h <;> rw [h] at hcomp <;> exact absurd hcomp (by decide)
  · intro dl hdl hcomp hfp hne hmem
    rw [getDownloadsList] at hmem
    exact absurd ⟨hfp, hcomp, hne⟩ ((hmemiff dl).mp hmem).2

/-- C4 witness: a failed record stays visible through the sweep. -/
theorem cleanInvalid_spec_witness :
    failedRec ∈ cleanInvalidDownloads (fun _ => true) [failedRec] :=
  (cleanInvalid_spec (fun _ => true) [failedRec]).2.2.1 failedRec (by simp) (Or.inl rfl)

/-- A filesystem operation is in `fsOps` exactly when the trace contains it. -/
theorem mem_fsOps (evs : List Ev) (op : FsOp) : op ∈ fsOps evs ↔ Ev.fs op ∈ evs := by
  rw [fsOps, List.mem_filterMap]
  constructor
  · rintro ⟨e, he, hfe⟩
    cases e with
    | fs op' =>
      simp only [Option.some.injEq] at hfe
      subst hfe
      exact he
    | reg op' => simp at hfe
  · intro h
    exact ⟨Ev.fs op, h, rfl⟩

/-- With a failing rename, a filesystem operation other than the creation
of `p` itself leaves "a file exists at `p`" unchanged. -/
theorem fsStep_false_preserve (p : String) (op : FsOp)
    (hop : ∀ q, op = FsOp.createTemp q → q ≠ p) (ex : Bool) :
    fsStep false p ex op = ex := by
  cases op with
  | createTemp q =>
    have hqp : ¬(p = q) := fun h => hop q rfl h.symm
    simp [fsStep, hqp]
  | rename src dst => simp [fsStep]
  | mkdirAll d => rfl
  | writeChunk pth n => rfl

/-- With a failing rename and no creation at `p`, no file appears at `p`. -/
theorem foldl_fsStep_false (p : String) : ∀ (l : List FsOp),
    (∀ q, FsOp.createTemp q ∈ l → q ≠ p) → l.foldl (fsStep false p) false = false := by
  intro l
  induction l with
  | nil => intro _; rfl
  | cons op rest ih =>
    intro h
    rw [List.foldl_cons,
      fsStep_false_preserve p op (fun q hq => h q (hq ▸ List.mem_cons_self op rest)) false]
    exact ih (fun q hq => h q (List.mem_cons_of_mem _ hq))

/-- In-place field updates that do not assign `Status` leave every
record's status unchanged. -/
theorem map_status_updateField (id : String) (f : Download → Download)
    (hf : ∀ dl, (f dl).status = dl.status) (regs : List Download) :
    (updateField id f regs).map Download.status = regs.map Download.status := by
  induction regs with
  | nil => rfl
  | cons a l ih =>
    have hhead : (if (a.id == id) = true then f a else a).status = a.status := by
      by_cases h : (a.id == id) = true
      · rw [if_pos h]
        exact hf a
      · rw [if_neg h]
    calc (updateField id f (a :: l)).map Download.status
        = (if (a.id == id) = true then f a else a).status ::
            (updateField id f l).map Download.status := rfl
      _ = a.status :: l.map Download.status := by rw [hhead, ih]
      _ = (a :: l).map Download.status := rfl

/-- Master lemma for a clean worker run (`http.Get` and `os.Create`
succeed, every chunk write succeeds, the stream ends in `io.EOF`): the
worker's effect on the record it owns, starting from a record with
`sizeCurrent = 0`. -/
theorem runWorker_ok_spec (env : WorkerEnv) (resp : HttpResponse) (id u : String)
    (regs : List Download) (dl0 : Download)
    (hr : env.getResult = some resp) (hc : env.createOk = true)
    (hw : allWritesOk resp.chunks = true) (he : resp.ending = StreamEnd.eof)
    (hf : findById id regs = some dl0) (hcur : dl0.sizeCurrent = 0) :
    ∃ dl', findById id (runWorker env id u regs) = some dl' ∧
      dl'.status = "completed" ∧
      dl'.sizeCurrent = sumN resp.chunks ∧
      dl'.sizeTotal = resp.contentLength ∧
      dl'.filename = workerFilename env u ∧
      dl'.filepath = workerFinalPath env u resp ∧
      (dl'.progress = ((sumN resp.chunks : Int) : ℚ) / (resp.contentLength : ℚ) * 100 ∨
        (sumN resp.chunks = 0 ∧ dl'.progress = dl0.progress)) := by
  have hdlMetaCur : (metaRecord env u resp dl0).sizeCurrent = 0 := hcur
  obtain ⟨hok, hcur2, hprog2, hstat2⟩ :=
    streamEvents_ok_spec id (workerTempPath env u) resp.contentLength resp.chunks resp.ending 0
      (metaRecord env u resp dl0) hw he hdlMetaCur
  have htrace := startDownloadEvents_ok env id u resp hr hc hok
  have hfold := findById_foldl id (startDownloadEvents env id u)
    (startDownloadEvents_targets env id u) regs
  obtain ⟨hm1, hm2, hm3, hm4, hm5⟩ := foldRecord_shape_meta id (workerTempPath env u)
    (streamEvents id (workerTempPath env u) resp.contentLength 0 resp.chunks resp.ending).1
    (streamEvents_shape id (workerTempPath env u) resp.contentLength resp.chunks resp.ending 0)
    (metaRecord env u resp dl0)
  set dlS : Download := foldRecord (streamEvents id (workerTempPath env u)
    resp.contentLength 0 resp.chunks resp.ending).1 (metaRecord env u resp dl0) with hdlS
  refine ⟨{ dlS with status := "completed" }, ?_, rfl, ?_, ?_, ?_, ?_, ?_⟩
  · rw [runWorker, hfold, hf, Option.map_some', htrace, foldRecord_append, foldRecord_append]
    rfl
  · show dlS.sizeCurrent = sumN resp.chunks
    rw [hcur2, zero_add]
  · show dlS.sizeTotal = resp.contentLength
    rw [hm1]
    rfl
  · show dlS.filename = workerFilename env u
    rw [hm2]
    rfl
  · show dlS.filepath = workerFinalPath env u resp
    rw [hm3]
    rfl
  · show dlS.progress = ((sumN resp.chunks : Int) : ℚ) / (resp.contentLength : ℚ) * 100 ∨
      (sumN resp.chunks = 0 ∧ dlS.progress = dl0.progress)
    rcases hprog2 with h | ⟨hz, h⟩
    · left
      rw [h, zero_add]
    · right
      refine ⟨hz, ?_⟩
      rw [h]
      rfl

/-- C5 counterexample: with an unknown content length (`ContentLength`
is -1) one delivered byte drives `progress` to -100, a negative value —
the division by `size_total` is performed although `size_total` is not
greater than 0, refuting the claim. -/
theorem progress_negative_on_unknown_total :
    (findById "1" (runWorker envUnknownLen "1" "u" [initialDownload "1" "u"])).map
      Download.progress = some (-100) ∧ ((-100 : ℚ) < 0) := by
  constructor
  · obtain ⟨dl', hfind, -, -, -, -, -, hprog⟩ :=
      runWorker_ok_spec envUnknownLen ⟨"", -1, [⟨1, true, 0⟩], StreamEnd.eof⟩ "1" "u"
        [initialDownload "1" "u"] (initialDownload "1" "u") rfl rfl rfl rfl rfl rfl
    rw [hfind, Option.map_some']
    rcases hprog with h | ⟨hz, -⟩
    · rw [h]
      norm_num [sumN]
    · exfalso
      simp [sumN] at hz
  · norm_num

/-- C5 amended: the streaming loop recomputes
`progress = size_current / size_total * 100` unconditionally; on a clean
run the final progress is that quotient (or the untouched initial value
when no byte arrived), and when the declared total is negative (unknown
length, -1) and at least one byte arrived, the published progress is
negative rather than being left at its previous value or 0. -/
theorem progress_division_unconditional (env : WorkerEnv) (resp : HttpResponse)
    (id u : String) (regs : List Download) (dl0 : Download)
    (hr : env.getResult = some resp) (hc : env.createOk = true)
    (hw : allWritesOk resp.chunks = true) (he : resp.ending = StreamEnd.eof)
    (hf : findById id regs = some dl0) (hcur : dl0.sizeCurrent = 0) :
    ∃ dl', findById id (runWorker env id u regs) = some dl' ∧
      (dl'.progress = ((sumN resp.chunks : Int) : ℚ) / (resp.contentLength : ℚ) * 100 ∨
        (sumN resp.chunks = 0 ∧ dl'.progress = dl0.progress)) ∧
      (resp.contentLength < 0 → 0 < sumN resp.chunks → dl'.progress < 0) := by
  obtain ⟨dl', hfind, -, -, -, -, -, hprog⟩ :=
    runWorker_ok_spec env resp id u regs dl0 hr hc hw he hf hcur
  refine ⟨dl', hfind, hprog, ?_⟩
  intro hTneg hNpos
  rcases hprog with h | ⟨hz, -⟩
  · rw [h]
    have h1 : (0 : ℚ) < ((sumN resp.chunks : Int) : ℚ) := by exact_mod_cast hNpos
    have h2 : ((resp.contentLength : ℚ)) < 0 := by exact_mod_cast hTneg
    exact mul_neg_of_neg_of_pos (div_neg_of_pos_of_neg h1 h2) (by norm_num)
  · exfalso
    omega

/-- C5 witness: the amended statement at the concrete unknown-length run. -/
theorem progress_division_unconditional_witness :
    ∃ dl', findById "1" (runWorker envUnknownLen "1" "u" [initialDownload "1" "u"]) =
        some dl' ∧
      (dl'.progress = ((sumN [(⟨1, true, 0⟩ : Chunk)] : Int) : ℚ) / ((-1 : Int) : ℚ) * 100 ∨
        (sumN [(⟨1, true, 0⟩ : Chunk)] = 0 ∧ dl'.progress = (initialDownload "1" "u").progress)) ∧
      ((-1 : Int) < 0 → 0 < sumN [(⟨1, true, 0⟩ : Chunk)] → dl'.progress < 0) :=
  progress_division_unconditional envUnknownLen ⟨"", -1, [⟨1, true, 0⟩], StreamEnd.eof⟩
    "1" "u" [initialDownload "1" "u"] (initialDownload "1" "u") rfl rfl rfl rfl rfl rfl

/-- C6 counterexample: a response that declares no length is published
with `size_total = -1` (Go's `ContentLength` sentinel), not 0 — refuting
the claim that an absent length yields `size_total = 0`. -/
theorem sizeTotal_minus_one_when_unknown :
    (findById "1" (runWorker envNoLength "1" "u" [initialDownload "1" "u"])).map
      Download.sizeTotal = some (-1) ∧ ((-1 : Int) ≠ 0) := by
  constructor
  · rfl
  · decide

/-- C6 amended: for every response the worker publishes `size_total`
equal to the response's `ContentLength` verbatim — which is -1, not 0,
when the response declares no length. -/
theorem sizeTotal_published_verbatim (env : WorkerEnv) (resp : HttpResponse)
    (id u : String) (regs : List Download) (dl0 : Download)
    (hr : env.getResult = some resp) (hc : env.createOk = true)
    (hf : findById id regs = some dl0) :
    ∃ dl', findById id (runWorker env id u regs) = some dl' ∧
      dl'.sizeTotal = resp.contentLength := by
  have hfold := findById_foldl id (startDownloadEvents env id u)
    (startDownloadEvents_targets env id u) regs
  obtain ⟨hm1, hm2, hm3, hm4, hm5⟩ := foldRecord_shape_meta id (workerTempPath env u)
    (streamEvents id (workerTempPath env u) resp.contentLength 0 resp.chunks resp.ending).1
    (streamEvents_shape id (workerTempPath env u) resp.contentLength resp.chunks resp.ending 0)
    (metaRecord env u resp dl0)
  cases hok : (streamEvents id (workerTempPath env u) resp.contentLength 0
      resp.chunks resp.ending).2 with
  | true =>
    have htrace := startDownloadEvents_ok env id u resp hr hc hok
    refine ⟨{ foldRecord (streamEvents id (workerTempPath env u) resp.contentLength 0
        resp.chunks resp.ending).1 (metaRecord env u resp dl0) with
        status := "completed" }, ?_, ?_⟩
    · rw [runWorker, hfold, hf, Option.map_some', htrace, foldRecord_append, foldRecord_append]
      rfl
    · show (foldRecord (streamEvents id (workerTempPath env u) resp.contentLength 0
        resp.chunks resp.ending).1 (metaRecord env u resp dl0)).sizeTotal = resp.contentLength
      rw [hm1]
      rfl
  | false =>
    have htrace := startDownloadEvents_notOk env id u resp hr hc hok
    refine ⟨foldRecord (streamEvents id (workerTempPath env u) resp.contentLength 0
        resp.chunks resp.ending).1 (metaRecord env u resp dl0), ?_, ?_⟩
    · rw [runWorker, hfold, hf, Option.map_some', htrace, foldRecord_append]
      rfl
    · rw [hm1]
      rfl

/-- C6 witness: the amended statement at the concrete no-length run. -/
theorem sizeTotal_published_verbatim_witness :
    ∃ dl', findById "1" (runWorker envNoLength "1" "u" [initialDownload "1" "u"]) =
        some dl' ∧ dl'.sizeTotal = (-1 : Int) :=
  sizeTotal_published_verbatim envNoLength ⟨"", -1, [], StreamEnd.eof⟩ "1" "u"
    [initialDownload "1" "u"] (initialDownload "1" "u") rfl rfl rfl

/-- C7: For every chunk sequence summing to N bytes, if the streaming loop
ends at end-of-stream with no read or write error, the final published
`size_current` equals N; the record's status is `completed`, and when
N equals the declared total T with T > 0, the final published progress is
exactly 100. -/
theorem startDownload_complete_spec (env : WorkerEnv) (resp : HttpResponse)
    (id u : String) (regs : List Download)
    (hr : env.getResult = some resp) (hc : env.createOk = true)
    (hw : allWritesOk resp.chunks = true) (he : resp.ending = StreamEnd.eof)
    (hf : findById id regs = some (initialDownload id u)) :
    ∃ dl', findById id (runWorker env id u regs) = some dl' ∧
      dl'.sizeCurrent = sumN resp.chunks ∧
      dl'.status = "completed" ∧
      (sumN resp.chunks = resp.contentLength → 0 < resp.contentLength →
        dl'.progress = 100) := by
  obtain ⟨dl', hfind, hstat, hcur, -, -, -, hprog⟩ :=
    runWorker_ok_spec env resp id u regs (initialDownload id u) hr hc hw he hf rfl
  refine ⟨dl', hfind, hcur, hstat, ?_⟩
  intro hNT hTpos
  rcases hprog with h | ⟨hz, -⟩
  · rw [h, hNT]
    have hTne : ((resp.contentLength : ℚ)) ≠ 0 := by
      have hne : resp.contentLength ≠ 0 := by omega
      exact_mod_cast hne
    rw [div_self hTne]
    norm_num
  · exfalso
    omega

/-- C7 witness: a 100-byte body with declared total 100 ends completed
with `size_current = 100` and `progress = 100`. -/
theorem startDownload_complete_spec_witness :
    ∃ dl', findById "1" (runWorker envMp4 "1" "http://x/test.mp4"
        [initialDownload "1" "http://x/test.mp4"]) = some dl' ∧
      dl'.sizeCurrent = sumN [(⟨100, true, 1⟩ : Chunk)] ∧
      dl'.status = "completed" ∧
      (sumN [(⟨100, true, 1⟩ : Chunk)] = (100 : Int) → (0 : Int) < 100 →
        dl'.progress = 100) :=
  startDownload_complete_spec envMp4 ⟨"video/mp4", 100, [⟨100, true, 1⟩], StreamEnd.eof⟩
    "1" "http://x/test.mp4" [initialDownload "1" "http://x/test.mp4"] rfl rfl rfl rfl rfl

/-- C10: When the body stream ends at end-of-stream with all chunk writes
succeeding, the worker sets the record's status to `completed`
unconditionally: the trace contains the rename attempt, yet even when the
rename fails (so no file exists at the record's filepath), the record
still ends `completed`. -/
theorem completed_despite_rename_failure (env : WorkerEnv) (resp : HttpResponse)
    (id u : String) (regs : List Download) (dl0 : Download)
    (hr : env.getResult = some resp) (hc : env.createOk = true)
    (hw : allWritesOk resp.chunks = true) (he : resp.ending = StreamEnd.eof)
    (hf : findById id regs = some dl0) (hcur : dl0.sizeCurrent = 0)
    (hne : workerTempPath env u ≠ workerFinalPath env u resp) :
    ∃ dl', findById id (runWorker env id u regs) = some dl' ∧
      dl'.status = "completed" ∧
      dl'.filepath = workerFinalPath env u resp ∧
      renameAttempted (startDownloadEvents env id u) = true ∧
      fileAtAfter false (startDownloadEvents env id u) (workerFinalPath env u resp) = false := by
  obtain ⟨dl', hfind, hstat, -, -, -, hfp, -⟩ :=
    runWorker_ok_spec env resp id u regs dl0 hr hc hw he hf hcur
  obtain ⟨hok, -, -, -⟩ :=
    streamEvents_ok_spec id (workerTempPath env u) resp.contentLength resp.chunks resp.ending 0
      (metaRecord env u resp dl0) hw he hcur
  have htrace := startDownloadEvents_ok env id u resp hr hc hok
  refine ⟨dl', hfind, hstat, hfp, ?_, ?_⟩
  · rw [renameAttempted, List.any_eq_true]
    refine ⟨FsOp.rename (workerTempPath env u) (workerFinalPath env u resp), ?_, rfl⟩
    rw [mem_fsOps, htrace]
    simp
  · rw [fileAtAfter]
    apply foldl_fsStep_false
    intro q hq
    rw [mem_fsOps, htrace] at hq
    rcases List.mem_append.mp hq with hq | hq
    · rcases List.mem_append.mp hq with hq | hq
      · rcases List.mem_cons.mp hq with heq | hq
        · exact absurd heq (by simp)
        rcases List.mem_cons.mp hq with heq | hq
        · simp only [Ev.fs.injEq, FsOp.createTemp.injEq] at heq
          subst heq
          exact hne
        rcases List.mem_cons.mp hq with heq | hq
        · exact absurd heq (by simp)
        · cases hq
      · have hsh := streamEvents_shape id (workerTempPath env u) resp.contentLength
          resp.chunks resp.ending 0 _ hq
        rcases hsh with ⟨n, heq⟩ | ⟨sp, heq⟩ | ⟨cur, p, heq⟩ | heq <;> simp at heq
    · rcases List.mem_cons.mp hq with heq | hq
      · exact absurd heq (by simp)
      rcases List.mem_cons.mp hq with heq | hq
      · exact absurd heq (by simp)
      · cases hq

/-- C10 witness: a concrete clean 7-byte run whose rename fails still ends
`completed` with no file at its filepath. -/
theorem completed_despite_rename_failure_witness :
    ∃ dl', findById "1" (runWorker envRenameFail "1" "http://x/a.mp4"
        [initialDownload "1" "http://x/a.mp4"]) = some dl' ∧
      dl'.status = "completed" ∧
      dl'.filepath = workerFinalPath envRenameFail "http://x/a.mp4"
        ⟨"video/mp4", 7, [⟨7, true, 1⟩], StreamEnd.eof⟩ ∧
      renameAttempted (startDownloadEvents envRenameFail "1" "http://x/a.mp4") = true ∧
      fileAtAfter false (startDownloadEvents envRenameFail "1" "http://x/a.mp4")
        (workerFinalPath envRenameFail "http://x/a.mp4"
          ⟨"video/mp4", 7, [⟨7, true, 1⟩], StreamEnd.eof⟩) = false :=
  completed_despite_rename_failure envRenameFail
    ⟨"video/mp4", 7, [⟨7, true, 1⟩], StreamEnd.eof⟩ "1" "http://x/a.mp4"
    [initialDownload "1" "http://x/a.mp4"] (initialDownload "1" "http://x/a.mp4")
    rfl rfl rfl rfl rfl rfl (by decide)

/-- C8: status only ever moves `in_progress → completed` or
`in_progress → failed`, at most once per record. The facade operations
keep every surviving record unchanged (sweep and clear are subsequences;
a submission only appends a fresh `in_progress` record); each worker run
publishes exactly one status write — `completed` or `failed` — addressed
to its own record; and none of the worker's other registry mutations
changes any record's status. -/
theorem status_transitions_monotone :
    (∀ (notExist : String → Bool) (regs : List Download),
      (cleanInvalidDownloads notExist regs).Sublist regs) ∧
    (∀ (notExist : String → Bool) (regs : List Download),
      (clearFailedReg notExist regs).Sublist regs) ∧
    (∀ (notExist : String → Bool) (freshId u : String) (regs : List Download),
      (addDownload notExist freshId u regs).regs = cleanInvalidDownloads notExist regs ∨
      (addDownload notExist freshId u regs).regs =
        cleanInvalidDownloads notExist regs ++ [initialDownload freshId u]) ∧
    (∀ freshId u : String, (initialDownload freshId u).status = "in_progress") ∧
    (∀ (env : WorkerEnv) (id u : String),
      statusWrites (startDownloadEvents env id u) = [(id, "completed")] ∨
      statusWrites (startDownloadEvents env id u) = [(id, "failed")]) ∧
    (∀ (regs : List Download) (id fn fp : String) (tot : Int),
      (applyRegOp regs (RegOp.setMeta id fn fp tot)).map Download.status =
        regs.map Download.status) ∧
    (∀ (regs : List Download) (id : String) (sp : Int),
      (applyRegOp regs (RegOp.setSpeed id sp)).map Download.status =
        regs.map Download.status) ∧
    (∀ (regs : List Download) (id : String) (cur : Int) (p : ℚ),
      (applyRegOp regs (RegOp.setProgress id cur p)).map Download.status =
        regs.map Download.status) := by
  refine ⟨?_, ?_, ?_, ?_, ?_, ?_, ?_, ?_⟩
  · intro notExist regs
    exact List.filter_sublist _
  · intro notExist regs
    exact (List.filter_sublist _).trans (List.filter_sublist _)
  · intro notExist freshId u regs
    rw [addDownload]
    cases hfind : (cleanInvalidDownloads notExist regs).find? (fun dl => dl.url == u) with
    | none =>
      right
      rfl
    | some dl =>
      left
      rfl
  · intro freshId u
    rfl
  · intro env id u
    exact startDownloadEvents_statusWrites env id u
  · intro regs id fn fp tot
    exact map_status_updateField id (regOpFun (RegOp.setMeta id fn fp tot))
      (fun dl => rfl) regs
  · intro regs id sp
    exact map_status_updateField id (regOpFun (RegOp.setSpeed id sp)) (fun dl => rfl) regs
  · intro regs id cur p
    exact map_status_updateField id (regOpFun (RegOp.setProgress id cur p))
      (fun dl => rfl) regs

end GoLoad
